import Mathlib

/-!
Verification of the download-session core of `bandcamp_dl_gui.py`.

The Python source is shallowly embedded: each function relevant to the
stated properties is translated into an executable Lean definition that
mirrors the source line by line (machine strings become `String`, Python
sets become `Finset`, floats become `ℚ`, fallible paths become explicit
error values).  Theorems below settle the specification claims against
these definitions.
-/

namespace BandcampDL

/-! ## String utilities mirroring Python primitives -/

/-- Python `needle in hay` prefix test on character lists. -/
def hasPrefixChars : List Char → List Char → Bool
  | _, [] => true
  | [], _ :: _ => false
  | c :: hs, d :: ns => c = d && hasPrefixChars hs ns

/-- Python substring containment `needle in hay` on character lists. -/
def containsChars : List Char → List Char → Bool
  | [], ns => ns.isEmpty
  | h :: t, ns => hasPrefixChars (h :: t) ns || containsChars t ns

/-- Python `needle in hay` on strings. -/
def strIn (needle hay : String) : Bool :=
  containsChars hay.data needle.data

/-- Python code-point lexicographic `≤` on character lists
(`str.__le__` compares by code point). -/
def charsLe : List Char → List Char → Bool
  | [], _ => true
  | _ :: _, [] => false
  | a :: as, b :: bs =>
    if a.toNat < b.toNat then true
    else if b.toNat < a.toNat then false
    else charsLe as bs

/-- Python `a <= b` on strings (code-point lexicographic order). -/
def strLeB (a b : String) : Bool := charsLe a.data b.data

/-- Python `str.lower()` on one character (the file names and titles in
play are ASCII, where Python and Unicode lowercasing agree). -/
def charLower (c : Char) : Char :=
  if 'A' ≤ c ∧ c ≤ 'Z' then Char.ofNat (c.toNat + 32) else c

/-- Python `str.lower()`. -/
def strLower (s : String) : String := ⟨s.data.map charLower⟩

/-- Python regex word character (`\w`): alphanumeric or underscore. -/
def isWordChar (c : Char) : Bool := c.isAlphanum || c = '_'

/-- Scanner for `re.search(r'\b(\d+)\b', s)`: find the first maximal digit
run preceded and followed by a word boundary.  `inRun` carries the value
accumulated for a candidate run that started at a word boundary; `prevWord`
says whether the previous character was a word character. -/
def firstIntScan (inRun : Option ℕ) (prevWord : Bool) : List Char → Option ℕ
  | [] => inRun
  | c :: cs =>
    match inRun with
    | some acc =>
      if c.isDigit then
        firstIntScan (some (acc * 10 + (c.toNat - '0'.toNat))) true cs
      else if isWordChar c then
        -- the run is followed by a word character: no boundary, abandon it
        firstIntScan none true cs
      else
        some acc
    | none =>
      if c.isDigit && !prevWord then
        firstIntScan (some (c.toNat - '0'.toNat)) true cs
      else
        firstIntScan none (isWordChar c) cs

/-- `re.search(r'\b(\d+)\b', file_title)` followed by `int(match.group(1))`. -/
def firstWordInt (s : String) : Option ℕ := firstIntScan none false s.data

/-- `re.match(r'^\d+[.\-]\s*', file_title)`: the stem starts with one or more
digits immediately followed by `.` or `-`.  (Backtracking on `\d+` cannot
help: any shorter digit prefix is followed by a digit, which is not in
`[.\-]`, and `\s*` always matches.) -/
def alreadyNumbered (stem : String) : Bool :=
  let cs := stem.data
  let run := cs.takeWhile Char.isDigit
  !run.isEmpty &&
    (match cs.dropWhile Char.isDigit with
     | [] => false
     | c :: _ => c = '.' || c = '-')

/-- Python `f"{n:02d}"` for the track number: values in `0..9` get one
leading zero; anything already two characters wide (including negatives
down to `-9`) is unchanged. -/
def pad2 (n : ℤ) : String :=
  if 0 ≤ n ∧ n ≤ 9 then "0" ++ toString n else toString n

/-- `sanitize_filename`: drop characters invalid on Windows/Linux, strip
leading/trailing spaces and dots, and fall back to `"Unknown"` when the
result is empty (an already-empty input is returned as is). -/
def sanitize_filename (name : String) : String :=
  if name = "" then name
  else
    let invalid : List Char := ['<', '>', ':', '"', '/', '\\', '|', '?', '*']
    let kept := name.data.filter (fun c => !invalid.contains c)
    let stripSet : List Char := [' ', '.']
    let front := kept.dropWhile (fun c => stripSet.contains c)
    let stripped := (front.reverse.dropWhile (fun c => stripSet.contains c)).reverse
    if stripped.isEmpty then "Unknown" else ⟨stripped⟩

/-! ## Progress tracking (`progress_hook`, `match_filter`)

Typed model of the provider progress events: per the provider contract
the events carry a status string, an optional integer playlist index,
byte counts, and a filename.  Display-only formatting (speed / eta
strings, log lines, widget updates) has no effect on session state and
is not modelled. -/

/-- One provider progress event (`d` in `progress_hook`). -/
structure Event where
  status : String
  playlist_index : Option ℤ
  downloaded_bytes : ℕ
  total_bytes : Option ℕ
  total_bytes_estimate : Option ℕ
  filename : String
deriving Repr, DecidableEq

/-- The mutable session fields touched by the download worker. -/
structure DLState where
  is_cancelling : Bool
  current_track : ℤ
  total_tracks : ℤ
  downloaded_files : Finset String
deriving DecidableEq

/-- `match_filter`: reject (with a reason string) exactly when the
cancellation flag is set; `none` means accept the entry. -/
def match_filter (s : DLState) : Option String :=
  if s.is_cancelling then some "Cancelled by user" else none

/-- `total = d.get('total_bytes') or d.get('total_bytes_estimate') or 0`:
Python `or` takes the first truthy operand, and `0` / `None` are falsy. -/
def effectiveTotal (e : Event) : ℕ :=
  match e.total_bytes with
  | some n => if n ≠ 0 then n else match e.total_bytes_estimate with
      | some m => if m ≠ 0 then m else 0
      | none => 0
  | none => match e.total_bytes_estimate with
      | some m => if m ≠ 0 then m else 0
      | none => 0

/-- Per-track percent: `min(100.0, max(0.0, downloaded / total * 100.0))`
when `total > 0`, undefined (`None`) otherwise. -/
def computePercent (downloaded total : ℕ) : Option ℚ :=
  if 0 < total then
    some (min 100 (max 0 ((downloaded : ℚ) / (total : ℚ) * 100)))
  else none

/-- Overall album percent:
`(completed_tracks + current_track_progress) / total_tracks * 100` with
`current_track_progress = percent / 100` (`0.0` when percent is `None`);
only computed when `total_tracks > 0`. -/
def computeOverall (current_track : ℤ) (percent : Option ℚ)
    (total_tracks : ℤ) : Option ℚ :=
  if 0 < total_tracks then
    some (((current_track : ℚ) + percent.getD 0 / 100) / (total_tracks : ℚ) * 100)
  else none

/-- The progress snapshot pushed to the display on a `downloading` event. -/
structure Snapshot where
  percent : Option ℚ
  overall_percent : Option ℚ
deriving DecidableEq

/-- Result of one `progress_hook` call: either the `KeyboardInterrupt`
raised when cancellation is set (state untouched), or the updated state
together with the snapshot computed for display. -/
inductive HookResult where
  | cancelled (s : DLState)
  | ok (s : DLState) (snap : Option Snapshot)
deriving DecidableEq

/-- `progress_hook`, on well-typed provider events.  Cancellation is
checked first and raises before any state is read or written.  A
`downloading` event stores the reported `playlist_index` whenever it
differs from the stored one; a `finished` event increments the index
(capped at `total_tracks - 1`) and records the filename; an `error`
event only logs. -/
def progress_hook (s : DLState) (e : Event) : HookResult :=
  if s.is_cancelling then .cancelled s
  else if e.status = "downloading" then
    let s1 :=
      match e.playlist_index with
      | some pi => if pi ≠ s.current_track then { s with current_track := pi } else s
      | none => s
    let percent := computePercent e.downloaded_bytes (effectiveTotal e)
    let overall := computeOverall s1.current_track percent s1.total_tracks
    .ok s1 (some ⟨percent, overall⟩)
  else if e.status = "finished" then
    let s1 :=
      if s.current_track < s.total_tracks - 1 then
        { s with current_track := s.current_track + 1 }
      else s
    let s2 :=
      if e.filename ≠ "" then
        { s1 with downloaded_files := insert e.filename s1.downloaded_files }
      else s1
    .ok s2 none
  else
    .ok s none

/-- The state after one `progress_hook` call. -/
def hookStep (s : DLState) (e : Event) : DLState :=
  match progress_hook s e with
  | .cancelled s' => s'
  | .ok s' _ => s'

/-- The state after a sequence of `progress_hook` calls. -/
def runEvents (s : DLState) (l : List Event) : DLState :=
  l.foldl hookStep s

/-- `clip(x, lo, hi)`, as the specification words the percent formula. -/
def clip (x lo hi : ℚ) : ℚ := max lo (min hi x)

/-! ## File reconciliation (`download_album`, post-download verification)

After the download step, `download_album` compares the set of
matching-extension files under the target root against the snapshot taken
before the download, also accepting any recorded `downloaded_files` path
that still exists; when neither holds it reports the dedicated
"no files were downloaded" outcome instead of a generic failure. -/

/-- The remediation message reported when no files were produced
(abridged to its opening sentence, which carries the category). -/
def noFilesMsg : String :=
  "No files were downloaded. This album may require purchase or login."

/-- Terminal verdict of the post-download verification. -/
inductive Verdict where
  | success
  | noFilesProduced (msg : String)
deriving DecidableEq

/-- `files_downloaded` as computed in `download_album`: new files appeared
(`after − before` non-empty), or — when `downloaded_files` is non-empty —
some recorded path still exists on disk. -/
def filesDownloaded (before after : Finset String)
    (downloadedFiles : Finset String) (onDisk : String → Bool) : Bool :=
  let newFiles := after \ before
  let fd := 0 < newFiles.card
  if downloadedFiles.Nonempty then
    fd || decide (∃ p ∈ downloadedFiles, onDisk p = true)
  else fd

/-- The session verdict derived from `files_downloaded`. -/
def downloadVerdict (before after : Finset String)
    (downloadedFiles : Finset String) (onDisk : String → Bool) : Verdict :=
  if filesDownloaded before after downloadedFiles onDisk then .success
  else .noFilesProduced noFilesMsg

/-! ## Track renaming (`apply_track_numbering`)

Model of one output directory: the filesystem is the list of file names
it holds.  `rglob` collects the names matching the target extensions and
`sort(key=lambda x: x.name)` orders them by name; Python's stable sort is
modelled by a stable insertion sort over code-point order.  Renames are
folded over the sorted scan, threading the evolving directory contents
(the `new_path.exists()` check sees files renamed earlier in the loop). -/

/-- One `download_info` catalog entry (built during full extraction):
title is the always-present lowercase-keyed title; the remaining tags
may be absent. -/
structure TrackMeta where
  title : String
  artist : Option String
  album : Option String
  track_number : Option ℤ
  date : Option String
deriving DecidableEq

/-- The `download_info` mapping in insertion order:
lowercased title key to per-track metadata. -/
abbrev Catalog := List (String × TrackMeta)

/-- Python `str.endswith` / the `*{ext}` glob pattern. -/
def strEndsWith (s suf : String) : Bool :=
  hasPrefixChars s.data.reverse suf.data.reverse

/-- `pathlib` stem/suffix split: the suffix starts at the last dot that
is neither leading nor trailing; otherwise the suffix is empty. -/
def splitExt (name : String) : String × String :=
  let cs := name.data
  let n := cs.length
  match ((List.range n).filter (fun i => cs.getD i ' ' = '.')).getLast? with
  | some i =>
    if 0 < i ∧ i + 1 < n then (⟨cs.take i⟩, ⟨cs.drop i⟩) else (name, "")
  | none => (name, "")

/-- Python's stable `list.sort(key=lambda x: x.name)` on file names. -/
def pySortByName (files : List String) : List String :=
  List.insertionSort (fun a b => strLeB a b = true) files

/-- Directory contents plus the rename log threaded through the scan. -/
structure RenState where
  fs : List String
  renames : List (String × String)
deriving DecidableEq

/-- Loop body of `apply_track_numbering` for one scanned file (with its
index in the sorted scan): skip temporaries, resolve the track number
(catalog bidirectional-substring match, then first word-bounded integer
in the stem, then 1-based position), render the prefix for the active
template, skip already-numbered stems, and rename unless the destination
exists (file names in one directory are unique, so the positional
`audio_files.index` equals the scan index). -/
def renameOne (style : String) (catalog : Catalog) (st : RenState)
    (idxF : ℕ × String) : RenState :=
  let idx := idxF.1
  let f := idxF.2
  if (match f.data with | c :: _ => c = '.' | [] => false) ||
      strIn "tmp" (strLower f) then st
  else
    let stem := (splitExt f).1
    let ext := (splitExt f).2
    let stemL := strLower stem
    let mtch := catalog.find? (fun kv => strIn stemL kv.1 || strIn kv.1 stemL)
    let tn0 : Option ℤ := match mtch with
      | some kv => kv.2.track_number
      | none => none
    let title0 : String := match mtch with
      | some kv => kv.2.title
      | none => stem
    let tn : ℤ := match tn0 with
      | some n => n
      | none => match firstWordInt stem with
        | some n => (n : ℤ)
        | none => (idx : ℤ) + 1
    let title1 := sanitize_filename title0
    let pre : Option String :=
      if style = "01. Track" then some (pad2 tn ++ ". ")
      else if style = "1. Track" then some (toString tn ++ ". ")
      else if style = "01 - Track" then some (pad2 tn ++ " - ")
      else if style = "1 - Track" then some (toString tn ++ " - ")
      else none
    match pre with
    | none => st
    | some p =>
      if alreadyNumbered stem then st
      else
        let newName := p ++ title1 ++ ext
        if newName ≠ f ∧ ¬ st.fs.contains newName then
          { fs := st.fs.erase f ++ [newName],
            renames := st.renames ++ [(f, newName)] }
        else st

/-- `apply_track_numbering` over one directory: returns the directory
contents after the pass and the list of performed renames. -/
def apply_track_numbering (style : String) (catalog : Catalog)
    (targetExts : List String) (files : List String) :
    List String × List (String × String) :=
  if style = "None" then (files, [])
  else
    let audio := pySortByName
      (files.filter (fun f => targetExts.any (fun x => strEndsWith f x)))
    let final := audio.enum.foldl (renameOne style catalog) ⟨files, []⟩
    (final.fs, final.renames)

/-! ## Cover-art deduplication (`deduplicate_cover_art`)

One directory is modelled as its list of file names plus the content-hash
function (MD5, total here: `get_file_hash` returns `None` only on an I/O
error, which is outside this model).  The glob per extension preserves
directory order; Python's stable sort by the key tuple
`(0 if canonical-name-in-stem else 1, name)` is again modelled by a
stable insertion sort. -/

/-- `THUMBNAIL_EXTENSIONS`. -/
def THUMBNAIL_EXTENSIONS : List String := [".jpg", ".jpeg", ".png", ".webp"]

/-- The canonical cover-art stem names preferred when deduplicating. -/
def canonicalCoverNames : List String := ["cover", "album", "folder", "artwork"]

/-- Cover-art files of a directory: one glob per thumbnail extension,
results concatenated in extension order. -/
def coverFiles (files : List String) : List String :=
  (THUMBNAIL_EXTENSIONS.map (fun ext =>
    files.filter (fun f => strEndsWith f ext))).flatten

/-- First component of the Python sort key: `0` when any canonical name
occurs in the lowercased stem, else `1`. -/
def coverRank (f : String) : ℕ :=
  if canonicalCoverNames.any (fun n => strIn n (strLower (splitExt f).1))
  then 0 else 1

/-- The Python sort key order: lexicographic on `(coverRank f, f)`. -/
def coverKeyLe (f g : String) : Prop :=
  coverRank f < coverRank g ∨ (coverRank f = coverRank g ∧ strLeB f g = true)

instance coverKeyLeDec : DecidableRel coverKeyLe := fun f g =>
  inferInstanceAs (Decidable (coverRank f < coverRank g ∨
    (coverRank f = coverRank g ∧ strLeB f g = true)))

/-- `deduplicate_cover_art` restricted to one directory: with at most one
cover file, or with more than one distinct content hash, nothing is
touched; with a single distinct hash the files are sorted by the
canonical-preference key, the head is kept and the rest are deleted. -/
def deduplicate_cover_art (files : List String) (hash : String → ℕ) :
    List String :=
  let covers := coverFiles files
  if covers.length ≤ 1 then files
  else if (covers.map hash).dedup.length = 1 then
    match List.insertionSort coverKeyLe covers with
    | [] => files
    | _kept :: rest => files.filter (fun f => ¬ rest.contains f)
  else files

/-! ## Metadata verification and repair
(`verify_and_fix_mp3_metadata`, `re_embed_mp3_metadata`)

The external media tool is modelled through its observable contract: the
probe returns the embedded tags (`none` when probing fails), and a
successful re-embed run rewrites exactly the metadata fields passed on
the command line (only truthy fields are passed; the rest are carried
over from the input file by the stream copy). -/

/-- Embedded tags probed from an audio file; a missing key is `none`. -/
structure Mp3Tags where
  title : Option String
  artist : Option String
  album : Option String
deriving DecidableEq

/-- `album_info_stored`: album-level fallback metadata. -/
structure AlbumInfo where
  artist : Option String
  album : Option String
  date : Option String
deriving DecidableEq

/-- The metadata dict handed to `re_embed_mp3_metadata`. -/
structure FixMeta where
  title : Option String
  artist : Option String
  album : Option String
  track_number : Option ℤ
  date : Option String
deriving DecidableEq

/-- Python truthiness of a possibly-missing string value. -/
def optTruthy : Option String → Bool
  | some s => s ≠ ""
  | none => false

/-- Python `str.strip()` (whitespace, ASCII range). -/
def pyStrip (s : String) : String :=
  let isWs := fun c : Char => c = ' ' || c = '\t' || c = '\n' || c = '\r'
  ⟨((s.data.dropWhile isWs).reverse.dropWhile isWs).reverse⟩

/-- `tags and tags.get(k) and tags.get(k).strip()`: the probe succeeded,
the tag is present, and it is not blank. -/
def hasTag (tags : Option Mp3Tags) (get : Mp3Tags → Option String) : Bool :=
  match tags with
  | none => false
  | some t =>
    match get t with
    | none => false
    | some s => pyStrip s ≠ ""

/-- Per-entry match test of the repairer's catalog loop: the lowercased
stem contains the key or vice versa, or (redundantly, since keys are the
lowercased titles) the entry's lowercased title contains the stem. -/
def matchesEntry (stemL : String) (kv : String × TrackMeta) : Bool :=
  strIn stemL kv.1 || strIn kv.1 stemL ||
    (kv.2.title ≠ "" && strIn stemL (strLower kv.2.title))

/-- First catalog entry matching the lowercased stem. -/
def findTrackMeta (catalog : Catalog) (stemL : String) : Option TrackMeta :=
  (catalog.find? (matchesEntry stemL)).map Prod.snd

/-- Metadata chosen for a file needing repair: the first matching catalog
entry, else album-level info with the filename as the title. -/
def chooseMetadata (catalog : Catalog) (ai : AlbumInfo) (stem : String) :
    FixMeta :=
  match findTrackMeta catalog (strLower stem) with
  | some m => ⟨some m.title, m.artist, m.album, m.track_number, m.date⟩
  | none => ⟨some stem, ai.artist, ai.album, none, ai.date⟩

/-- One file of `verify_and_fix_mp3_metadata`: skip (`none`) when title,
artist and album are all present and non-blank; otherwise choose repair
metadata, re-embedding only when it has a truthy artist, album or title. -/
def verify_and_fix_one (tags : Option Mp3Tags) (catalog : Catalog)
    (ai : AlbumInfo) (stem : String) : Option FixMeta :=
  if hasTag tags Mp3Tags.title && hasTag tags Mp3Tags.artist &&
      hasTag tags Mp3Tags.album then none
  else
    let md := chooseMetadata catalog ai stem
    if optTruthy md.artist || optTruthy md.album || optTruthy md.title then
      some md
    else none

/-- Tags of the rewritten file after a successful `re_embed_mp3_metadata`
run: each truthy field of the metadata dict is passed with `-metadata`
and overwrites the tag; the rest are stream-copied from the original. -/
def re_embed_tags (old : Mp3Tags) (md : FixMeta) : Mp3Tags :=
  ⟨if optTruthy md.title then md.title else old.title,
   if optTruthy md.artist then md.artist else old.artist,
   if optTruthy md.album then md.album else old.album⟩

/-! ## Dynamic-typing model of `progress_hook`

For the totality claim the event dict must range over arbitrary Python
values, not just well-typed provider events: `progress_hook` wraps its
body in `try ... except KeyboardInterrupt: raise / except Exception:
pass`, so a malformed event must never abort the download.  `PyVal`
models the value universe, the comparison/arithmetic helpers model the
Python operators together with the `TypeError`/`ZeroDivisionError` they
can raise, and the body threads the partially-mutated state to the point
of the first exception (mutations made before it persist, as in Python).
Operations that cannot raise (truthiness tests, `==`/`!=`, `isinstance`-
guarded comparisons, string formatting, the marshalled UI updates) are
modelled total. -/

/-- A Python value as it may appear in a progress-event dict. -/
inductive PyVal where
  | none
  | b (x : Bool)
  | i (n : ℤ)
  | f (q : ℚ)
  | s (t : String)
deriving DecidableEq

/-- A Python dict with string keys. -/
abbrev PyDict := List (String × PyVal)

/-- `d.get(k, default)`. -/
def dGet (d : PyDict) (k : String) (dflt : PyVal) : PyVal :=
  match d.find? (fun kv => kv.1 = k) with
  | some kv => kv.2
  | Option.none => dflt

/-- Python truthiness. -/
def pyTruthy : PyVal → Bool
  | .none => false
  | .b x => x
  | .i n => n ≠ 0
  | .f q => q ≠ 0
  | .s t => t ≠ ""

/-- Python `a or b`: the first truthy operand. -/
def pyOr (a b : PyVal) : PyVal := if pyTruthy a then a else b

/-- Numeric view of a value; `bool` is an `int` subclass
(mirrors `isinstance(v, (int, float))`). -/
def asNum : PyVal → Option ℚ
  | .b x => some (if x then 1 else 0)
  | .i n => some (n : ℚ)
  | .f q => some q
  | _ => Option.none

/-- Python `==`: numeric values compare by value across `bool`/`int`/
`float`, strings compare as strings, everything else is unequal;
never raises. -/
def pyEq (a b : PyVal) : Bool :=
  match asNum a, asNum b with
  | some x, some y => x = y
  | _, _ =>
    match a, b with
    | .s x, .s y => x = y
    | .none, .none => true
    | _, _ => false

/-- The `Exception`-subclass errors the hook body can raise.  (Python's
`KeyboardInterrupt` derives from `BaseException`, not `Exception`, which
is what makes the body's blanket `except Exception` handler safe; the
class hierarchy is mirrored here in the types via `ExcErr.toPyErr`.) -/
inductive ExcErr where
  | typeError
  | zeroDivisionError
deriving DecidableEq

/-- Exceptions observable from a `progress_hook` call. -/
inductive PyErr where
  | keyboardInterrupt
  | typeError
  | zeroDivisionError
deriving DecidableEq

/-- The inclusion `Exception <: BaseException`. -/
def ExcErr.toPyErr : ExcErr → PyErr
  | .typeError => .typeError
  | .zeroDivisionError => .zeroDivisionError

/-- Python `a < b`: numbers and strings are ordered; any other pairing
raises `TypeError`. -/
def pyLt (a b : PyVal) : Except ExcErr Bool :=
  match asNum a, asNum b with
  | some x, some y => .ok (x < y)
  | _, _ =>
    match a, b with
    | .s x, .s y => .ok (strLeB x y && x ≠ y)
    | _, _ => .error .typeError

/-- Python `a >= b`. -/
def pyGe (a b : PyVal) : Except ExcErr Bool :=
  match asNum a, asNum b with
  | some x, some y => .ok (y ≤ x)
  | _, _ =>
    match a, b with
    | .s x, .s y => .ok (strLeB y x)
    | _, _ => .error .typeError

/-- Python `a / b` on event values. -/
def pyDiv (a b : PyVal) : Except ExcErr ℚ :=
  match asNum a, asNum b with
  | some x, some y => if y = 0 then .error .zeroDivisionError else .ok (x / y)
  | _, _ => .error .typeError

/-- Python `v + 1` on a numeric value (callers establish numericity). -/
def pyAdd1 : PyVal → PyVal
  | .i n => .i (n + 1)
  | .f q => .f (q + 1)
  | .b x => .i ((if x then 1 else 0) + 1)
  | v => v

/-- The session fields touched by the hook, with the dynamically-typed
`current_track` (a malformed `playlist_index` is stored as-is) and the
`downloaded_files` set under Python `==` semantics. -/
structure PyState where
  is_cancelling : Bool
  current_track : PyVal
  total_tracks : ℤ
  downloaded_files : List PyVal
deriving DecidableEq

/-- `set.add`: append unless an equal element is present. -/
def insertPy (v : PyVal) (l : List PyVal) : List PyVal :=
  if l.any (fun w => pyEq w v) then l else l ++ [v]

/-- The `try` body of `progress_hook`, on an arbitrary event dict: the
updated state paired with the first exception raised, if any.  The
exception points are the operations on unvalidated event values: the
`total > 0` test, the `downloaded / total` division, the
`self.current_track >= 0` test behind the track prefix, the
`downloaded > 0` test reached when no progress parts were built, and the
`self.current_track < self.total_tracks - 1` test of the `finished`
branch. -/
def progressHookBody (st : PyState) (d : PyDict) : PyState × Option ExcErr :=
  let status := dGet d "status" (.s "")
  if pyEq status (.s "downloading") then
    let pi := dGet d "playlist_index" .none
    let st1 :=
      if pi ≠ PyVal.none then
        if !pyEq pi st.current_track then { st with current_track := pi } else st
      else st
    let downloaded := pyOr (dGet d "downloaded_bytes" (.i 0)) (.i 0)
    let total := pyOr (pyOr (dGet d "total_bytes" .none)
      (dGet d "total_bytes_estimate" .none)) (.i 0)
    match pyLt (.i 0) total with
    | .error e => (st1, some e)
    | .ok tpos =>
      match (if tpos then (pyDiv downloaded total).map
          (fun q => some (min 100 (max 0 (q * 100)))) else .ok Option.none) with
      | .error e => (st1, some e)
      | .ok pct =>
        let speed := dGet d "speed" .none
        let hasSpeed := pyTruthy speed &&
          (match asNum speed with | some q => decide (0 < q) | Option.none => false)
        let eta := dGet d "eta" .none
        let hasEta := eta ≠ PyVal.none &&
          (match asNum eta with | some q => decide (5 ≤ q) | Option.none => false)
        match (if 0 < st1.total_tracks then
            (pyGe st1.current_track (.i 0)).map (fun _ => ()) else .ok ()) with
        | .error e => (st1, some e)
        | .ok _ =>
          let partsEmpty := pct.isNone && !hasSpeed && !hasEta
          match (if partsEmpty then (pyLt (.i 0) downloaded).map (fun _ => ())
              else .ok ()) with
          | .error e => (st1, some e)
          | .ok _ => (st1, Option.none)
  else if pyEq status (.s "finished") then
    match pyLt st.current_track (.i (st.total_tracks - 1)) with
    | .error e => (st, some e)
    | .ok lt =>
      let st1 := if lt then { st with current_track := pyAdd1 st.current_track }
        else st
      let fn := dGet d "filename" (.s "")
      let st2 := if pyTruthy fn then
          { st1 with downloaded_files := insertPy fn st1.downloaded_files }
        else st1
      (st2, Option.none)
  else (st, Option.none)

/-- `progress_hook` on an arbitrary event dict: raise
`KeyboardInterrupt` first when cancelling, re-raise a body
`KeyboardInterrupt`, and swallow every other body exception. -/
def progress_hook_py (st : PyState) (d : PyDict) : PyState × Option PyErr :=
  if st.is_cancelling then (st, some .keyboardInterrupt)
  else
    match progressHookBody st d with
    | (s', some e) =>
      if e.toPyErr = PyErr.keyboardInterrupt then (s', some e.toPyErr)
      else (s', Option.none)
    | (s', Option.none) => (s', Option.none)

/-! ## Order lemmas for the Python sort keys -/

theorem charsLe_refl (as : List Char) : charsLe as as = true := by
  induction as with
  | nil => rfl
  | cons a as ih => simp [charsLe, ih]

theorem charsLe_total (as : List Char) : ∀ bs,
    charsLe as bs = true ∨ charsLe bs as = true := by
  induction as with
  | nil => intro bs; left; rfl
  | cons a as ih =>
    intro bs
    cases bs with
    | nil => right; rfl
    | cons b bs =>
      by_cases h1 : a.toNat < b.toNat
      · left; simp [charsLe, h1]
      · by_cases h2 : b.toNat < a.toNat
        · right; simp [charsLe, h2]
        · rcases ih bs with h | h
          · left; simp [charsLe, h1, h2, h]
          · right; simp [charsLe, h1, h2, h]

theorem charsLe_trans (as : List Char) : ∀ bs cs,
    charsLe as bs = true → charsLe bs cs = true → charsLe as cs = true := by
  induction as with
  | nil => intro bs cs _ _; rfl
  | cons a as ih =>
    intro bs cs hab hbc
    cases bs with
    | nil => simp [charsLe] at hab
    | cons b bs =>
      cases cs with
      | nil => simp [charsLe] at hbc
      | cons c cs =>
        by_cases x1 : a.toNat < b.toNat
        · by_cases x2 : b.toNat < c.toNat
          · simp [charsLe, Nat.lt_trans x1 x2]
          · by_cases x3 : c.toNat < b.toNat
            · simp [charsLe, x2, x3] at hbc
            · have hac : a.toNat < c.toNat := by omega
              simp [charsLe, hac]
        · by_cases x3 : b.toNat < a.toNat
          · simp [charsLe, x1, x3] at hab
          · by_cases x2 : b.toNat < c.toNat
            · have hac : a.toNat < c.toNat := by omega
              simp [charsLe, hac]
            · by_cases x4 : c.toNat < b.toNat
              · simp [charsLe, x2, x4] at hbc
              · have e1 : ¬ a.toNat < c.toNat := by omega
                have e2 : ¬ c.toNat < a.toNat := by omega
                simp only [charsLe, if_neg x1, if_neg x3] at hab
                simp only [charsLe, if_neg x2, if_neg x4] at hbc
                simp only [charsLe, if_neg e1, if_neg e2]
                exact ih bs cs hab hbc

theorem coverKeyLe_refl (f : String) : coverKeyLe f f :=
  Or.inr ⟨rfl, charsLe_refl f.data⟩

theorem coverKeyLe_total (f g : String) : coverKeyLe f g ∨ coverKeyLe g f := by
  rcases Nat.lt_trichotomy (coverRank f) (coverRank g) with h | h | h
  · exact Or.inl (Or.inl h)
  · rcases charsLe_total f.data g.data with hc | hc
    · exact Or.inl (Or.inr ⟨h, hc⟩)
    · exact Or.inr (Or.inr ⟨h.symm, hc⟩)
  · exact Or.inr (Or.inl h)

theorem coverKeyLe_trans (f g k : String) :
    coverKeyLe f g → coverKeyLe g k → coverKeyLe f k := by
  rintro (h1 | ⟨h1, h1'⟩) (h2 | ⟨h2, h2'⟩)
  · exact Or.inl (Nat.lt_trans h1 h2)
  · exact Or.inl (h2 ▸ h1)
  · exact Or.inl (h1 ▸ h2)
  · exact Or.inr ⟨h1.trans h2, charsLe_trans _ _ _ h1' h2'⟩

/-! ## Supporting lemmas about the progress hook -/

theorem hookStep_cancelling (s : DLState) (e : Event)
    (h : s.is_cancelling = true) : hookStep s e = s := by
  simp [hookStep, progress_hook, h]

theorem hookStep_total_tracks (s : DLState) (e : Event) :
    (hookStep s e).total_tracks = s.total_tracks := by
  by_cases hc : s.is_cancelling
  · simp [hookStep, progress_hook, hc]
  · by_cases hd : e.status = "downloading"
    · cases hpi : e.playlist_index with
      | none => simp [hookStep, progress_hook, hc, hd, hpi]
      | some pi =>
        by_cases hne : pi = s.current_track <;>
          simp [hookStep, progress_hook, hc, hd, hpi, hne]
    · by_cases hf : e.status = "finished"
      · by_cases hlt : s.current_track < s.total_tracks - 1 <;>
          by_cases hfn : e.filename = "" <;>
            simp [hookStep, progress_hook, hc, hd, hf, hlt, hfn]
      · simp [hookStep, progress_hook, hc, hd, hf]

theorem hookStep_bounds (s : DLState) (e : Event)
    (h0 : 0 ≤ s.current_track) (h1 : s.current_track < s.total_tracks)
    (hpi : ∀ pi, e.playlist_index = some pi → 0 ≤ pi ∧ pi < s.total_tracks) :
    0 ≤ (hookStep s e).current_track ∧
      (hookStep s e).current_track < s.total_tracks := by
  by_cases hc : s.is_cancelling
  · simp [hookStep, progress_hook, hc]; omega
  · by_cases hd : e.status = "downloading"
    · cases hpi' : e.playlist_index with
      | none => simp [hookStep, progress_hook, hc, hd, hpi']; omega
      | some pi =>
        have := hpi pi hpi'
        by_cases hne : pi = s.current_track <;>
          simp [hookStep, progress_hook, hc, hd, hpi', hne] <;> omega
    · by_cases hf : e.status = "finished"
      · by_cases hlt : s.current_track < s.total_tracks - 1 <;>
          by_cases hfn : e.filename = "" <;>
            simp [hookStep, progress_hook, hc, hd, hf, hlt, hfn] <;> omega
      · simp [hookStep, progress_hook, hc, hd, hf]; omega

theorem runEvents_bounds (l : List Event) (s : DLState)
    (h0 : 0 ≤ s.current_track) (h1 : s.current_track < s.total_tracks)
    (hpi : ∀ e ∈ l, ∀ pi, e.playlist_index = some pi →
      0 ≤ pi ∧ pi < s.total_tracks) :
    0 ≤ (runEvents s l).current_track ∧
      (runEvents s l).current_track < (runEvents s l).total_tracks ∧
      (runEvents s l).total_tracks = s.total_tracks := by
  induction l generalizing s with
  | nil => exact ⟨h0, h1, rfl⟩
  | cons e l ih =>
    have htt := hookStep_total_tracks s e
    have hb := hookStep_bounds s e h0 h1 (fun pi h => hpi e (by simp) pi h)
    have := ih (hookStep s e) hb.1 (htt ▸ hb.2)
      (fun e' he' pi h => htt ▸ hpi e' (by simp [he']) pi h)
    simpa [runEvents, List.foldl_cons, htt] using this

/-! ## Claim theorems: cancellation and progress -/

/-- C1: once the cancellation flag is set, every item-filter call returns a
rejection reason, every progress-hook call raises `KeyboardInterrupt`
before touching any state, and running any further event sequence leaves
the whole session state — in particular `downloaded_files` — unchanged. -/
theorem cancellation_gate_stops_session (s : DLState) (e : Event)
    (l : List Event) (h : s.is_cancelling = true) :
    match_filter s = some "Cancelled by user" ∧
    progress_hook s e = .cancelled s ∧
    runEvents s l = s ∧
    (runEvents s l).downloaded_files = s.downloaded_files := by
  have hrun : runEvents s l = s := by
    induction l with
    | nil => rfl
    | cons e' l ih =>
      have hstep : hookStep s e' = s := hookStep_cancelling s e' h
      simpa [runEvents, List.foldl_cons, hstep] using ih
  refine ⟨by simp [match_filter, h], by simp [progress_hook, h], hrun, by rw [hrun]⟩

theorem cancellation_gate_stops_session_witness :
    match_filter ⟨true, 0, 3, ∅⟩ = some "Cancelled by user" ∧
    progress_hook ⟨true, 0, 3, ∅⟩ ⟨"downloading", some 1, 10, some 20, none, ""⟩ =
      .cancelled ⟨true, 0, 3, ∅⟩ ∧
    runEvents ⟨true, 0, 3, ∅⟩
      [⟨"finished", none, 0, none, none, "a.mp3"⟩] = ⟨true, 0, 3, ∅⟩ ∧
    (runEvents ⟨true, 0, 3, ∅⟩
      [⟨"finished", none, 0, none, none, "a.mp3"⟩]).downloaded_files =
      DLState.downloaded_files ⟨true, 0, 3, ∅⟩ :=
  cancellation_gate_stops_session ⟨true, 0, 3, ∅⟩
    ⟨"downloading", some 1, 10, some 20, none, ""⟩
    [⟨"finished", none, 0, none, none, "a.mp3"⟩] rfl

theorem percent_monotone_pair (total d₁ d₂ : ℕ) (ht : 0 < total)
    (hd : d₁ ≤ d₂) :
    (computePercent d₁ total).getD 0 ≤ (computePercent d₂ total).getD 0 := by
  simp only [computePercent, ht, if_pos, Option.getD_some]
  have ht' : (0 : ℚ) < total := by exact_mod_cast ht
  have h1 : (d₁ : ℚ) / total * 100 ≤ (d₂ : ℚ) / total * 100 := by
    have hdq : (d₁ : ℚ) ≤ d₂ := by exact_mod_cast hd
    gcongr
  exact min_le_min le_rfl (max_le_max le_rfl h1)

/-- C2: with a known positive total, every computed per-track percent is
`clip(downloaded/total*100, 0, 100)`; along a monotonically increasing
sequence of byte counts (each at most the total) the percents are
non-decreasing and stay in `[0, 100]`; with total `0` (unknown or absent)
the percent is undefined. -/
theorem percent_clip_monotone_bounded (total : ℕ) (l : List ℕ) (ht : 0 < total)
    (hsort : l.Sorted (· ≤ ·)) (hle : ∀ d ∈ l, d ≤ total) :
    (∀ d ∈ l, computePercent d total =
      some (clip ((d : ℚ) / (total : ℚ) * 100) 0 100)) ∧
    (∀ d ∈ l, ∀ q, computePercent d total = some q → 0 ≤ q ∧ q ≤ 100) ∧
    (l.map (fun d => (computePercent d total).getD 0)).Sorted (· ≤ ·) ∧
    (∀ d ∈ l, computePercent d 0 = none) := by
  have hclip : ∀ x : ℚ, min 100 (max 0 x) = clip x 0 100 := by
    intro x
    rw [clip, max_min_distrib_left]
    norm_num
  refine ⟨?_, ?_, ?_, ?_⟩
  · intro d _
    simp [computePercent, ht, hclip]
  · intro d _ q hq
    simp only [computePercent, ht, if_pos, Option.some_inj] at hq
    subst hq
    constructor
    · exact le_min (by norm_num) (le_max_left 0 _)
    · exact min_le_left _ _
  · exact hsort.map _ (fun a b hab => percent_monotone_pair total a b ht hab)
  · intro d _
    simp [computePercent]

theorem percent_clip_monotone_bounded_witness :
    (∀ d ∈ [0, 50, 200], computePercent d 200 =
      some (clip ((d : ℚ) / (200 : ℚ) * 100) 0 100)) ∧
    (∀ d ∈ [0, 50, 200], ∀ q, computePercent d 200 = some q → 0 ≤ q ∧ q ≤ 100) ∧
    (([0, 50, 200] : List ℕ).map
      (fun d => (computePercent d 200).getD 0)).Sorted (· ≤ ·) ∧
    (∀ d ∈ [0, 50, 200], computePercent d 0 = none) :=
  percent_clip_monotone_bounded 200 [0, 50, 200] (by norm_num)
    (by decide) (by decide)

/-- C3 is refuted on the code: starting from a fresh session with
`total_tracks = 2`, a single `downloading` event whose provider-reported
`playlist_index` is `5` drives `current_track` to `5 ≥ total_tracks`
(the code stores the reported index unclamped), and a following event
reporting index `1` makes the index decrease. -/
theorem track_index_claim_cex :
    (runEvents ⟨false, 0, 2, ∅⟩
      [⟨"downloading", some 5, 0, none, none, ""⟩]).current_track = 5 ∧
    ¬ ((runEvents ⟨false, 0, 2, ∅⟩
      [⟨"downloading", some 5, 0, none, none, ""⟩]).current_track <
        (runEvents ⟨false, 0, 2, ∅⟩
          [⟨"downloading", some 5, 0, none, none, ""⟩]).total_tracks) ∧
    (runEvents ⟨false, 0, 2, ∅⟩
      [⟨"downloading", some 5, 0, none, none, ""⟩,
       ⟨"downloading", some 1, 0, none, none, ""⟩]).current_track <
      (runEvents ⟨false, 0, 2, ∅⟩
        [⟨"downloading", some 5, 0, none, none, ""⟩]).current_track := by
  refine ⟨rfl, by decide, by decide⟩

/-- C3 (amended): a `downloading` event updates the track index only when
the provider reports a changed index, but it stores the reported index
unclamped; consequently the invariant `0 ≤ current_track < total_tracks`
holds after any event sequence provided every reported index lies in
`[0, total_tracks)` (out-of-range or smaller reported indices violate it,
as the counterexample shows). -/
theorem track_index_amended (s : DLState) (l : List Event) (e : Event) (pi : ℤ)
    (h0 : 0 ≤ s.current_track) (h1 : s.current_track < s.total_tracks)
    (hrange : ∀ e' ∈ l, ∀ j, e'.playlist_index = some j →
      0 ≤ j ∧ j < s.total_tracks) :
    (0 ≤ (runEvents s l).current_track ∧
      (runEvents s l).current_track < (runEvents s l).total_tracks) ∧
    (e.status = "downloading" →
      (e.playlist_index = none ∨ e.playlist_index = some s.current_track) →
      hookStep s e = s) ∧
    (e.status = "downloading" → s.is_cancelling = false →
      e.playlist_index = some pi → pi ≠ s.current_track →
      (hookStep s e).current_track = pi) := by
  refine ⟨?_, ?_, ?_⟩
  · have := runEvents_bounds l s h0 h1 hrange
    exact ⟨this.1, this.2.1⟩
  · intro hd hcase
    by_cases hc : s.is_cancelling
    · exact hookStep_cancelling s e hc
    · rcases hcase with hnone | hsame
      · simp [hookStep, progress_hook, hc, hd, hnone]
      · simp [hookStep, progress_hook, hc, hd, hsame]
  · intro hd hc hpi hne
    simp [hookStep, progress_hook, hc, hd, hpi, hne]

theorem track_index_amended_witness :
    (0 ≤ (runEvents ⟨false, 0, 3, ∅⟩
        [⟨"downloading", some 1, 0, none, none, ""⟩,
         ⟨"finished", none, 0, none, none, "a.mp3"⟩]).current_track ∧
      (runEvents ⟨false, 0, 3, ∅⟩
        [⟨"downloading", some 1, 0, none, none, ""⟩,
         ⟨"finished", none, 0, none, none, "a.mp3"⟩]).current_track <
        (runEvents ⟨false, 0, 3, ∅⟩
          [⟨"downloading", some 1, 0, none, none, ""⟩,
           ⟨"finished", none, 0, none, none, "a.mp3"⟩]).total_tracks) ∧
    (Event.status ⟨"downloading", some 0, 0, none, none, ""⟩ = "downloading" →
      (Event.playlist_index ⟨"downloading", some 0, 0, none, none, ""⟩ = none ∨
        Event.playlist_index ⟨"downloading", some 0, 0, none, none, ""⟩ =
          some (DLState.current_track ⟨false, 0, 3, ∅⟩)) →
      hookStep ⟨false, 0, 3, ∅⟩ ⟨"downloading", some 0, 0, none, none, ""⟩ =
        ⟨false, 0, 3, ∅⟩) ∧
    (Event.status ⟨"downloading", some 2, 0, none, none, ""⟩ = "downloading" →
      DLState.is_cancelling ⟨false, 0, 3, ∅⟩ = false →
      Event.playlist_index ⟨"downloading", some 2, 0, none, none, ""⟩ = some 2 →
      (2 : ℤ) ≠ DLState.current_track ⟨false, 0, 3, ∅⟩ →
      (hookStep ⟨false, 0, 3, ∅⟩
        ⟨"downloading", some 2, 0, none, none, ""⟩).current_track = 2) := by
  have h := track_index_amended ⟨false, 0, 3, ∅⟩
    [⟨"downloading", some 1, 0, none, none, ""⟩,
     ⟨"finished", none, 0, none, none, "a.mp3"⟩]
    ⟨"downloading", some 2, 0, none, none, ""⟩ 2
    (by decide) (by decide) (by decide)
  refine ⟨h.1, ?_, h.2.2⟩
  intro _ hcase
  have h' := track_index_amended ⟨false, 0, 3, ∅⟩ []
    ⟨"downloading", some 0, 0, none, none, ""⟩ 0
    (by decide) (by decide) (by simp)
  exact h'.2.1 rfl hcase

/-- C4: with `total_tracks = N > 0`, a track index in `[0, N)` and a
per-track percent in `[0, 100]`, the overall album percent computed on a
`downloading` event equals `(current_track + percent/100) / N * 100`
(an undefined per-track percent is treated as `0`), and it equals `100`
exactly when the index is `N - 1` and that track's percent is `100`. -/
theorem overall_percent_formula (N i : ℤ) (p : ℚ)
    (hN : 0 < N) (h0 : 0 ≤ i) (h1 : i < N) (hp0 : 0 ≤ p) (hp1 : p ≤ 100) :
    computeOverall i (some p) N = some (((i : ℚ) + p / 100) / (N : ℚ) * 100) ∧
    computeOverall i none N = some (((i : ℚ) + 0 / 100) / (N : ℚ) * 100) ∧
    (computeOverall i (some p) N = some 100 ↔ i = N - 1 ∧ p = 100) := by
  have hNq : (0 : ℚ) < (N : ℚ) := by exact_mod_cast hN
  refine ⟨by simp [computeOverall, hN], by simp [computeOverall, hN], ?_⟩
  simp only [computeOverall, hN, if_pos, Option.getD_some, Option.some_inj]
  constructor
  · intro h
    have hx : (i : ℚ) + p / 100 = (N : ℚ) := by
      field_simp at h
      linarith
    have hiq : (i : ℚ) ≤ (N : ℚ) - 1 := by
      have : i + 1 ≤ N := h1
      have : ((i : ℚ) + 1) ≤ (N : ℚ) := by exact_mod_cast this
      linarith
    have hple : p / 100 ≤ 1 := by linarith
    have hpN1 : (i : ℚ) = (N : ℚ) - 1 := by linarith
    refine ⟨?_, by linarith⟩
    exact_mod_cast hpN1
  · rintro ⟨rfl, rfl⟩
    push_cast
    field_simp

/-- C5: the reconciliation verdict is `success` iff `after − before` is
non-empty or some recorded downloaded path still exists; otherwise the
session ends in the distinct `noFilesProduced` outcome whose message
carries the purchase/login remediation guidance.  In particular
`before = {A.mp3}`, `after = {A.mp3, B.mp3}` succeeds, while
`before = after` with no recorded files yields `noFilesProduced`. -/
theorem reconcile_success_iff (before after downloadedFiles : Finset String)
    (onDisk : String → Bool) :
    (downloadVerdict before after downloadedFiles onDisk = .success ↔
      ((after \ before).Nonempty ∨ ∃ p ∈ downloadedFiles, onDisk p = true)) ∧
    (downloadVerdict before after downloadedFiles onDisk ≠ .success →
      downloadVerdict before after downloadedFiles onDisk =
        .noFilesProduced noFilesMsg) ∧
    strIn "purchase or login" noFilesMsg = true ∧
    downloadVerdict {"A.mp3"} {"A.mp3", "B.mp3"} ∅ (fun _ => false) =
      .success ∧
    downloadVerdict {"A.mp3"} {"A.mp3"} ∅ (fun _ => false) =
      .noFilesProduced noFilesMsg := by
  have hfd : filesDownloaded before after downloadedFiles onDisk = true ↔
      ((after \ before).Nonempty ∨ ∃ p ∈ downloadedFiles, onDisk p = true) := by
    unfold filesDownloaded
    by_cases hne : downloadedFiles.Nonempty
    · simp only [hne, if_pos, Bool.or_eq_true, decide_eq_true_eq]
      constructor
      · rintro (h | h)
        · exact Or.inl (Finset.card_pos.mp (by exact_mod_cast h))
        · exact Or.inr h
      · rintro (h | h)
        · exact Or.inl (by exact_mod_cast Finset.card_pos.mpr h)
        · exact Or.inr h
    · simp only [hne, if_neg, decide_eq_true_eq, not_false_iff]
      rw [Finset.not_nonempty_iff_eq_empty] at hne
      subst hne
      simp [Finset.card_pos]
  refine ⟨?_, ?_, by decide, by decide, by decide⟩
  · rw [downloadVerdict]
    constructor
    · intro h
      by_cases hb : filesDownloaded before after downloadedFiles onDisk
      · exact hfd.mp hb
      · simp [hb] at h
    · intro h
      simp [hfd.mpr h]
  · intro h
    rw [downloadVerdict] at h ⊢
    by_cases hb : filesDownloaded before after downloadedFiles onDisk
    · simp [hb] at h
    · simp [hb]

/-- C6 fails on the code: the already-numbered guard
`^\d+[.\-]\s*` requires `.` or `-` immediately after the digits, but the
dash templates emit `NN - Title` with a space first, so their own output
is not recognised.  Concretely, one pass over `["Track.mp3"]` with the
`01 - Track` template and an empty catalog yields `01 - Track.mp3`, and a
second pass over that output performs a further rename to
`01 - 01 - Track.mp3` (the leading `01` is now picked up as the track
number).  The dot templates are guarded correctly (`01. Track.mp3` is
skipped), confirming the dash case is the slip. -/
theorem renamer_second_run_renames :
    apply_track_numbering "01 - Track" [] [".mp3"] ["Track.mp3"] =
      (["01 - Track.mp3"], [("Track.mp3", "01 - Track.mp3")]) ∧
    apply_track_numbering "01 - Track" [] [".mp3"] ["01 - Track.mp3"] =
      (["01 - 01 - Track.mp3"],
       [("01 - Track.mp3", "01 - 01 - Track.mp3")]) ∧
    apply_track_numbering "01. Track" [] [".mp3"] ["Track.mp3"] =
      (["01. Track.mp3"], [("Track.mp3", "01. Track.mp3")]) ∧
    apply_track_numbering "01. Track" [] [".mp3"] ["01. Track.mp3"] =
      (["01. Track.mp3"], []) := by
  refine ⟨by decide, by decide, by decide, by decide⟩

/-- C7: the renamer's number-resolution priority and rename guard,
exercised end to end on the claim's scenario and on one scenario per
priority tier.  With catalog entries Intro(1)/Outro(2) and the
zero-padded-dash template, `Intro.mp3`/`Outro.mp3` become
`01 - Intro.mp3`/`02 - Outro.mp3` (catalog match, tier 1); `Intro 5.mp3`
takes the catalog number 1, not the digit 5 (tier 1 beats tier 2);
`Song 7.mp3` with no catalog takes its embedded integer 7 (tier 2);
`Track.mp3` with no catalog and no digits takes its 1-based position
(tier 3); and no rename happens when the destination already exists. -/
theorem renamer_priority_end_to_end :
    apply_track_numbering "01 - Track"
      [("intro", ⟨"Intro", none, none, some 1, none⟩),
       ("outro", ⟨"Outro", none, none, some 2, none⟩)]
      [".mp3"] ["Intro.mp3", "Outro.mp3"] =
      (["01 - Intro.mp3", "02 - Outro.mp3"],
       [("Intro.mp3", "01 - Intro.mp3"), ("Outro.mp3", "02 - Outro.mp3")]) ∧
    apply_track_numbering "01 - Track"
      [("intro", ⟨"Intro", none, none, some 1, none⟩),
       ("outro", ⟨"Outro", none, none, some 2, none⟩)]
      [".mp3"] ["Intro 5.mp3"] =
      (["01 - Intro.mp3"], [("Intro 5.mp3", "01 - Intro.mp3")]) ∧
    apply_track_numbering "01 - Track" [] [".mp3"] ["Song 7.mp3"] =
      (["07 - Song 7.mp3"], [("Song 7.mp3", "07 - Song 7.mp3")]) ∧
    apply_track_numbering "1. Track" [] [".mp3"] ["Track.mp3"] =
      (["1. Track.mp3"], [("Track.mp3", "1. Track.mp3")]) ∧
    apply_track_numbering "01. Track"
      [("intro", ⟨"Intro", none, none, some 1, none⟩)]
      [".mp3"] ["01. Intro.mp3", "Intro.mp3"] =
      (["01. Intro.mp3", "Intro.mp3"], []) := by
  refine ⟨by decide, by decide, by decide, by decide, by decide⟩

/-- C8: in a directory whose cover files all share one content hash,
exactly one file is kept — the minimum under the Python sort key, which
prefers stems containing a canonical name (`cover`, `album`, `folder`,
`artwork`) and breaks ties lexicographically by filename — and the rest
are deleted; with more than one distinct hash nothing is deleted.  The
claim's instance (three byte-identical images including `cover.jpg`
leaves exactly `cover.jpg`) and a lexicographic tie-break instance are
evaluated directly. -/
theorem cover_dedup_spec (files : List String) (hash : String → ℕ)
    (hnd : (coverFiles files).Nodup)
    (hlen : 2 ≤ (coverFiles files).length) :
    (((coverFiles files).map hash).dedup.length = 1 →
      ∃ kept, kept ∈ coverFiles files ∧
        (∀ f ∈ coverFiles files, coverKeyLe kept f) ∧
        (∀ f, f ∈ deduplicate_cover_art files hash ↔
          (f ∈ files ∧ (f ∈ coverFiles files → f = kept)))) ∧
    (((coverFiles files).map hash).dedup.length ≠ 1 →
      deduplicate_cover_art files hash = files) ∧
    deduplicate_cover_art ["cover.jpg", "thumb1.jpg", "thumb2.jpg"]
      (fun _ => 7) = ["cover.jpg"] ∧
    deduplicate_cover_art ["b.jpg", "a.jpg"] (fun _ => 3) = ["a.jpg"] ∧
    deduplicate_cover_art ["a.jpg", "b.jpg"]
      (fun f => if f = "a.jpg" then 1 else 2) = ["a.jpg", "b.jpg"] := by
  haveI : IsTotal String coverKeyLe := ⟨coverKeyLe_total⟩
  haveI : IsTrans String coverKeyLe := ⟨coverKeyLe_trans⟩
  have hnle : ¬ (coverFiles files).length ≤ 1 := by omega
  refine ⟨?_, ?_, by decide, by decide, by decide⟩
  · intro hone
    have hsorted := List.sorted_insertionSort coverKeyLe (coverFiles files)
    have hperm := List.perm_insertionSort coverKeyLe (coverFiles files)
    obtain ⟨kept, rest, heq⟩ :
        ∃ kept rest, List.insertionSort coverKeyLe (coverFiles files) =
          kept :: rest := by
      cases hsort : List.insertionSort coverKeyLe (coverFiles files) with
      | nil =>
        have := hperm.length_eq
        rw [hsort] at this
        simp at this
        omega
      | cons k r => exact ⟨k, r, rfl⟩
    rw [heq] at hsorted hperm
    have hmem : ∀ f, f ∈ coverFiles files ↔ (f = kept ∨ f ∈ rest) := by
      intro f
      rw [← hperm.mem_iff, List.mem_cons]
    have hknr : kept ∉ rest := by
      have : (kept :: rest).Nodup := (hperm.nodup_iff).mpr hnd
      exact (List.nodup_cons.mp this).1
    have hresult : deduplicate_cover_art files hash =
        files.filter (fun f => ¬ rest.contains f) := by
      unfold deduplicate_cover_art
      rw [if_neg hnle, if_pos hone, heq]
    refine ⟨kept, (hmem kept).mpr (Or.inl rfl), ?_, ?_⟩
    · intro f hf
      rcases (hmem f).mp hf with rfl | hfr
      · exact coverKeyLe_refl f
      · exact (List.pairwise_cons.mp hsorted).1 f hfr
    · intro f
      have hcont : ∀ x : String, rest.contains x = true ↔ x ∈ rest := by
        intro x; simp [List.contains, List.elem_iff]
      rw [hresult, List.mem_filter]
      simp only [decide_eq_true_eq, hcont]
      constructor
      · rintro ⟨hfl, hfr⟩
        refine ⟨hfl, fun hfc => ?_⟩
        rcases (hmem f).mp hfc with rfl | h
        · rfl
        · exact absurd h hfr
      · rintro ⟨hfl, hfc⟩
        refine ⟨hfl, fun hfr => ?_⟩
        have : f ∈ coverFiles files := (hmem f).mpr (Or.inr hfr)
        exact hknr ((hfc this) ▸ hfr)
  · intro hone
    unfold deduplicate_cover_art
    rw [if_neg hnle, if_neg hone]

theorem cover_dedup_spec_witness :
    ((((coverFiles ["cover.jpg", "thumb1.jpg", "thumb2.jpg"]).map
        (fun _ => (7 : ℕ))).dedup.length = 1 →
      ∃ kept, kept ∈ coverFiles ["cover.jpg", "thumb1.jpg", "thumb2.jpg"] ∧
        (∀ f ∈ coverFiles ["cover.jpg", "thumb1.jpg", "thumb2.jpg"],
          coverKeyLe kept f) ∧
        (∀ f, f ∈ deduplicate_cover_art
            ["cover.jpg", "thumb1.jpg", "thumb2.jpg"] (fun _ => 7) ↔
          (f ∈ ["cover.jpg", "thumb1.jpg", "thumb2.jpg"] ∧
            (f ∈ coverFiles ["cover.jpg", "thumb1.jpg", "thumb2.jpg"] →
              f = kept)))) ∧
    ((((coverFiles ["cover.jpg", "thumb1.jpg", "thumb2.jpg"]).map
        (fun _ => (7 : ℕ))).dedup.length ≠ 1 →
      deduplicate_cover_art ["cover.jpg", "thumb1.jpg", "thumb2.jpg"]
        (fun _ => 7) = ["cover.jpg", "thumb1.jpg", "thumb2.jpg"]) ∧
    deduplicate_cover_art ["cover.jpg", "thumb1.jpg", "thumb2.jpg"]
      (fun _ => 7) = ["cover.jpg"] ∧
    deduplicate_cover_art ["b.jpg", "a.jpg"] (fun _ => 3) = ["a.jpg"] ∧
    deduplicate_cover_art ["a.jpg", "b.jpg"]
      (fun f => if f = "a.jpg" then 1 else 2) = ["a.jpg", "b.jpg"])) :=
  cover_dedup_spec ["cover.jpg", "thumb1.jpg", "thumb2.jpg"] (fun _ => 7)
    (by decide) (by decide)

/-- C9: a file whose probed title, artist and album are all present and
non-blank is skipped; otherwise the repair metadata comes from the first
catalog entry matching the lowercased stem by bidirectional substring
containment, falling back to album-level info with the filename as title
when no entry matches.  In the claim's instance — empty tags and a
catalog entry whose lowercased title is a substring of the stem — the
repaired file's title, artist and album equal the entry's values. -/
theorem metadata_repair_spec (tags : Option Mp3Tags) (catalog : Catalog)
    (ai : AlbumInfo) (stem : String)
    (pre post : List (String × TrackMeta)) (kv : String × TrackMeta)
    (hall : hasTag tags Mp3Tags.title = true ∧
      hasTag tags Mp3Tags.artist = true ∧ hasTag tags Mp3Tags.album = true) :
    verify_and_fix_one tags catalog ai stem = none ∧
    ((∀ e ∈ catalog, matchesEntry (strLower stem) e = false) →
      chooseMetadata catalog ai stem =
        ⟨some stem, ai.artist, ai.album, none, ai.date⟩) ∧
    ((∀ e ∈ pre, matchesEntry (strLower stem) e = false) →
      matchesEntry (strLower stem) kv = true →
      chooseMetadata (pre ++ kv :: post) ai stem =
        ⟨some kv.2.title, kv.2.artist, kv.2.album,
         kv.2.track_number, kv.2.date⟩) ∧
    verify_and_fix_one (some ⟨some "", some "", some ""⟩)
      [("echoes", ⟨"Echoes", some "Aurora", some "First Light",
        some 3, some "2020"⟩)] ⟨none, none, none⟩ "03 Echoes" =
      some ⟨some "Echoes", some "Aurora", some "First Light",
        some 3, some "2020"⟩ ∧
    re_embed_tags ⟨some "", some "", some ""⟩
      ⟨some "Echoes", some "Aurora", some "First Light",
        some 3, some "2020"⟩ =
      ⟨some "Echoes", some "Aurora", some "First Light"⟩ := by
  refine ⟨?_, ?_, ?_, by decide, by decide⟩
  · simp [verify_and_fix_one, hall.1, hall.2.1, hall.2.2]
  · intro hnone
    have : catalog.find? (matchesEntry (strLower stem)) = none :=
      List.find?_eq_none.mpr (fun e he => by simp [hnone e he])
    simp [chooseMetadata, findTrackMeta, this]
  · intro hpre hkv
    have : (pre ++ kv :: post).find? (matchesEntry (strLower stem)) =
        some kv := by
      induction pre with
      | nil => simpa using List.find?_cons_of_pos _ hkv
      | cons e pre ih =>
        have he : matchesEntry (strLower stem) e = false :=
          hpre e (by simp)
        have := ih (fun e' he' => hpre e' (by simp [he']))
        simpa [List.find?_cons_of_neg, he] using this
    simp [chooseMetadata, findTrackMeta, this]

theorem metadata_repair_spec_witness :
    verify_and_fix_one (some ⟨some "t", some "a", some "b"⟩) [] ⟨none, none, none⟩
      "x" = none ∧
    ((∀ e ∈ ([] : Catalog), matchesEntry (strLower "x") e = false) →
      chooseMetadata [] ⟨none, none, none⟩ "x" =
        ⟨some "x", none, none, none, none⟩) ∧
    ((∀ e ∈ ([] : List (String × TrackMeta)),
        matchesEntry (strLower "x") e = false) →
      matchesEntry (strLower "x") ("x", ⟨"X", none, none, none, none⟩) = true →
      chooseMetadata ([] ++ ("x", (⟨"X", none, none, none, none⟩ : TrackMeta))
          :: []) ⟨none, none, none⟩ "x" =
        ⟨some "X", none, none, none, none⟩) ∧
    verify_and_fix_one (some ⟨some "", some "", some ""⟩)
      [("echoes", ⟨"Echoes", some "Aurora", some "First Light",
        some 3, some "2020"⟩)] ⟨none, none, none⟩ "03 Echoes" =
      some ⟨some "Echoes", some "Aurora", some "First Light",
        some 3, some "2020"⟩ ∧
    re_embed_tags ⟨some "", some "", some ""⟩
      ⟨some "Echoes", some "Aurora", some "First Light",
        some 3, some "2020"⟩ =
      ⟨some "Echoes", some "Aurora", some "First Light"⟩ :=
  metadata_repair_spec (some ⟨some "t", some "a", some "b"⟩) [] ⟨none, none, none⟩
    "x" [] [] ("x", ⟨"X", none, none, none, none⟩)
    ⟨by decide, by decide, by decide⟩

theorem excErr_not_interrupt (e : ExcErr) :
    e.toPyErr ≠ PyErr.keyboardInterrupt := by
  cases e <;> simp [ExcErr.toPyErr]

/-- C10: on an arbitrary event dict the progress hook is total apart from
cancellation — when the cancellation flag is unset no exception escapes
(every internal `TypeError`/`ZeroDivisionError` on malformed values is
swallowed by the blanket handler), and the only exception it ever
propagates is the `KeyboardInterrupt` raised, before any state mutation,
when the flag is set. -/
theorem hook_total_except_cancellation (st : PyState) (d : PyDict) :
    (st.is_cancelling = false → (progress_hook_py st d).2 = Option.none) ∧
    (st.is_cancelling = true →
      progress_hook_py st d = (st, some PyErr.keyboardInterrupt)) ∧
    (∀ e, (progress_hook_py st d).2 = some e →
      st.is_cancelling = true ∧ e = PyErr.keyboardInterrupt) := by
  refine ⟨?_, ?_, ?_⟩
  · intro hc
    unfold progress_hook_py
    rw [if_neg (by simp [hc])]
    rcases hb : progressHookBody st d with ⟨s', oe⟩
    rcases oe with _ | e
    · simp
    · simp [excErr_not_interrupt e]
  · intro hc
    unfold progress_hook_py
    rw [if_pos hc]
  · intro e he
    by_cases hc : st.is_cancelling
    · refine ⟨hc, ?_⟩
      unfold progress_hook_py at he
      rw [if_pos hc] at he
      simpa using he.symm
    · have hfalse : st.is_cancelling = false := by simpa using hc
      unfold progress_hook_py at he
      rw [if_neg (by simp [hfalse])] at he
      rcases hb : progressHookBody st d with ⟨s', oe⟩
      rw [hb] at he
      rcases oe with _ | e'
      · simp at he
      · simp [excErr_not_interrupt e'] at he

theorem hook_total_except_cancellation_witness :
    ((PyState.is_cancelling ⟨false, .i 0, 3, []⟩ = false →
      (progress_hook_py ⟨false, .i 0, 3, []⟩
        [("status", .s "downloading"), ("playlist_index", .s "oops"),
         ("total_bytes", .s "garbage")]).2 = Option.none) ∧
    (PyState.is_cancelling ⟨false, .i 0, 3, []⟩ = true →
      progress_hook_py ⟨false, .i 0, 3, []⟩
        [("status", .s "downloading"), ("playlist_index", .s "oops"),
         ("total_bytes", .s "garbage")] =
        (⟨false, .i 0, 3, []⟩, some PyErr.keyboardInterrupt)) ∧
    (∀ e, (progress_hook_py ⟨false, .i 0, 3, []⟩
        [("status", .s "downloading"), ("playlist_index", .s "oops"),
         ("total_bytes", .s "garbage")]).2 = some e →
      PyState.is_cancelling ⟨false, .i 0, 3, []⟩ = true ∧
        e = PyErr.keyboardInterrupt)) ∧
    (progress_hook_py ⟨true, .i 0, 3, []⟩ [("status", .s "finished")]).2 =
      some PyErr.keyboardInterrupt :=
  ⟨hook_total_except_cancellation ⟨false, .i 0, 3, []⟩
    [("status", .s "downloading"), ("playlist_index", .s "oops"),
     ("total_bytes", .s "garbage")],
   ((hook_total_except_cancellation ⟨true, .i 0, 3, []⟩
      [("status", .s "finished")]).2.1 rfl) ▸ rfl⟩

theorem reconcile_success_iff_witness :
    ((downloadVerdict {"A.mp3"} {"A.mp3", "B.mp3"} ∅ (fun _ => false) =
        .success ↔
      (({"A.mp3", "B.mp3"} \ ({"A.mp3"} : Finset String)).Nonempty ∨
        ∃ p ∈ (∅ : Finset String), (fun _ => false) p = true)) ∧
    (downloadVerdict {"A.mp3"} {"A.mp3", "B.mp3"} ∅ (fun _ => false) ≠
        .success →
      downloadVerdict {"A.mp3"} {"A.mp3", "B.mp3"} ∅ (fun _ => false) =
        .noFilesProduced noFilesMsg) ∧
    strIn "purchase or login" noFilesMsg = true ∧
    downloadVerdict {"A.mp3"} {"A.mp3", "B.mp3"} ∅ (fun _ => false) =
      .success ∧
    downloadVerdict {"A.mp3"} {"A.mp3"} ∅ (fun _ => false) =
      .noFilesProduced noFilesMsg) :=
  reconcile_success_iff {"A.mp3"} {"A.mp3", "B.mp3"} ∅ (fun _ => false)

theorem overall_percent_formula_witness :
    computeOverall 2 (some 100) 3 =
      some (((2 : ℚ) + 100 / 100) / (3 : ℚ) * 100) ∧
    computeOverall 2 none 3 = some (((2 : ℚ) + 0 / 100) / (3 : ℚ) * 100) ∧
    (computeOverall 2 (some 100) 3 = some 100 ↔ (2 : ℤ) = 3 - 1 ∧ (100 : ℚ) = 100) :=
  overall_percent_formula 3 2 100 (by norm_num) (by norm_num) (by norm_num)
    (by norm_num) (by norm_num)

end BandcampDL
